import Mathlib

/-!
Verification of the sparse-to-dense timetable grid construction from
`src/timetable/src/components/Timetable.jsx`.

The component receives `data : SchedulePayload` (group id → course name →
list of sessions) and, for each group, allocates a `days.length × timeSlots.length`
grid of nullable cells, then writes each in-bounds session into
`timetable[dayIndex][slotIndex]`.  Iteration over groups and over the courses
of a group happens through JavaScript `Object.entries`, whose enumeration
order puts array-index-like keys first in ascending numeric order, followed by
the remaining keys in insertion order; this ordering is modelled by `jsEntries`.
-/

set_option autoImplicit false

namespace TimetableModel

/-- A scheduled session, as found in the JSON payload:
`{ course_type, day, slot, teacher_id }`.  `day` and `slot` are 1-based and
arrive as arbitrary JS numbers, modelled as `Int`. -/
structure Session where
  course_type : String
  day : Int
  slot : Int
  teacher_id : Int
  deriving DecidableEq

/-- The value written into a grid cell by
`timetable[dayIndex][slotIndex] = { courseName, courseType: session.course_type, teacherId: session.teacher_id }`. -/
structure CellValue where
  courseName : String
  courseType : String
  teacherId : Int
  deriving DecidableEq

/-- A group's timetable: a dense 2D array of nullable cells,
outer index = dayIndex, inner index = slotIndex. -/
abbrev Grid := List (List (Option CellValue))

/-- One group's schedule: course name → ordered list of sessions.
Modelled as an insertion-ordered association list (the JS object in
document/insertion order). -/
abbrev GroupSchedule := List (String × List Session)

/-- The whole payload: group id → `GroupSchedule`, insertion-ordered. -/
abbrev SchedulePayload := List (String × GroupSchedule)

/-! ### JavaScript `Object.entries` enumeration order -/

/-- Decimal value of a digit string. -/
def digitsToNat (l : List Char) : Nat :=
  l.foldl (fun n c => n * 10 + (c.toNat - '0'.toNat)) 0

/-- An object key is an array index (per ECMA-262 `OrdinaryOwnPropertyKeys`)
when it is the canonical decimal string of some `n` with `0 ≤ n < 2^32 - 1`:
nonempty, all digits, no leading zero (unless the key is exactly "0"), and
value below `2^32 - 1`. -/
def isArrayIndexKey (s : String) : Bool :=
  match s.data with
  | [] => false
  | c :: cs =>
    (c :: cs).all Char.isDigit && (c != '0' || cs.isEmpty) &&
      digitsToNat (c :: cs) < 4294967295

/-- Numeric value of an array-index-like key (only meaningful on keys
satisfying `isArrayIndexKey`). -/
def keyNum (s : String) : Nat :=
  digitsToNat s.data

/-- Stable insertion of an entry into a list sorted by `keyNum` of the key. -/
def insertNum {α : Type} (x : String × α) : List (String × α) → List (String × α)
  | [] => [x]
  | y :: ys => if keyNum x.1 ≤ keyNum y.1 then x :: y :: ys else y :: insertNum x ys

/-- Stable sort by ascending numeric key value. -/
def sortNum {α : Type} (l : List (String × α)) : List (String × α) :=
  l.foldr insertNum []

/-- JavaScript `Object.entries` on an object whose properties were created in
list order: array-index-like keys first, in ascending numeric order, then the
remaining keys in insertion order. -/
def jsEntries {α : Type} (l : List (String × α)) : List (String × α) :=
  sortNum (l.filter (fun p => isArrayIndexKey p.1))
    ++ l.filter (fun p => !isArrayIndexKey p.1)

/-! ### Grid construction, translated from `Timetable.jsx` lines 14–33 -/

/-- `Array(days).fill().map(() => Array(slots).fill(null))`. -/
def emptyGrid (days slots : Nat) : Grid :=
  List.replicate days (List.replicate slots none)

/-- `timetable[dayIndex][slotIndex] = v` (indices known in-bounds at call site). -/
def setCell (g : Grid) (d s : Nat) (v : CellValue) : Grid :=
  g.set d ((g.getD d []).set s (some v))

/-- The body of `sessions.forEach(session => ...)`: compute the 0-based
indices, bounds-check them, and either write the cell or skip silently. -/
def applySession (days slots : Nat) (courseName : String) (g : Grid)
    (session : Session) : Grid :=
  let dayIndex : Int := session.day - 1
  let slotIndex : Int := session.slot - 1
  if 0 ≤ dayIndex ∧ dayIndex < (days : Int) ∧ 0 ≤ slotIndex ∧ slotIndex < (slots : Int) then
    setCell g dayIndex.toNat slotIndex.toNat
      { courseName := courseName, courseType := session.course_type,
        teacherId := session.teacher_id }
  else g

/-- `Object.entries(groupCourses).forEach(([courseName, sessions]) => ...)`
over a fresh empty grid. -/
def buildGroupGrid (days slots : Nat) (gc : GroupSchedule) : Grid :=
  (jsEntries gc).foldl (fun g p => p.2.foldl (applySession days slots p.1) g)
    (emptyGrid days slots)

/-- `Object.entries(data).map(([groupNumber, groupCourses]) => ...)`:
the mapping group id → completed grid, in JS enumeration order. -/
def build (payload : SchedulePayload) (days slots : Nat) : List (String × Grid) :=
  (jsEntries payload).map (fun p => (p.1, buildGroupGrid days slots p.2))

/-- `const days = [...]` from the source. -/
def days : List String :=
  ["Sunday", "Monday", "Tuesday", "Wednesday", "Thursday"]

/-- `const timeSlots = [...]` from the source. -/
def timeSlots : List String :=
  ["8:30-10:00", "10:10-11:40", "11:45-13:15", "13:20-14:50", "15:00-16:30"]

/-- The grids the `Timetable` component constructs for a given `data` payload,
with the source's fixed dimensions. -/
def timetableGrids (data : SchedulePayload) : List (String × Grid) :=
  build data days.length timeSlots.length

/-! ### The derived sub-type label -/

/-- Model of JavaScript `String.prototype.split` with separator `'_'`,
at the character-list level: `"a_b_c" ↦ ["a","b","c"]`, `"" ↦ [""]`. -/
def splitUnd : List Char → List (List Char)
  | [] => [[]]
  | c :: cs =>
    if c = '_' then [] :: splitUnd cs
    else
      match splitUnd cs with
      | [] => [[c]]
      | r :: rs => (c :: r) :: rs

/-- The text the cell's sub-type `<div>` shows:
`cell.courseType.split('_')[1]`, where an out-of-range index yields
`undefined`, which React renders as empty text. -/
def subTypeDisplay (courseType : String) : String :=
  String.mk (((splitUnd courseType.data).get? 1).getD [])

/-- Modelled from the spec words (for comparison with the code-derived
`subTypeDisplay`): "the substring of `course_type` after its first
underscore; if `course_type` contains no underscore, this derived value is
empty". -/
def subTypeSpec (courseType : String) : String :=
  match courseType.data.dropWhile (fun c => c ≠ '_') with
  | [] => ""
  | _ :: rest => String.mk rest

/-! ### Specification-level views of the construction -/

/-- The session lands inside the calendar: `1 ≤ day ≤ days` and
`1 ≤ slot ≤ slots` (equivalently, the code's 0-based indices are in range). -/
def sessionInBounds (days slots : Nat) (sess : Session) : Prop :=
  1 ≤ sess.day ∧ sess.day ≤ (days : Int) ∧ 1 ≤ sess.slot ∧ sess.slot ≤ (slots : Int)

instance (days slots : Nat) (sess : Session) :
    Decidable (sessionInBounds days slots sess) := by
  unfold sessionInBounds; infer_instance

/-- The cell value that the named session writes at position `(d, s)`,
if it is in bounds and targets exactly that position; `none` otherwise. -/
def sessionTarget? (days slots d s : Nat) (q : String × Session) : Option CellValue :=
  let sess := q.2
  if 0 ≤ sess.day - 1 ∧ sess.day - 1 < (days : Int) ∧
      0 ≤ sess.slot - 1 ∧ sess.slot - 1 < (slots : Int) ∧
      (sess.day - 1).toNat = d ∧ (sess.slot - 1).toNat = s then
    some { courseName := q.1, courseType := sess.course_type,
           teacherId := sess.teacher_id }
  else none

/-- All (courseName, session) pairs of a group, in processing order:
courses in JS enumeration order, sessions in list order. -/
def sessionsOf (gc : GroupSchedule) : List (String × Session) :=
  (jsEntries gc).flatMap (fun p => p.2.map (fun sess => (p.1, sess)))

/-- The cell values written to position `(d, s)`, in processing order. -/
def writes (days slots : Nat) (gc : GroupSchedule) (d s : Nat) : List CellValue :=
  (sessionsOf gc).filterMap (sessionTarget? days slots d s)

/-- The content of the cell at `(dayIndex, slotIndex)` of a grid
(`none` for an empty cell or an out-of-range position). -/
def cellAt (g : Grid) (d s : Nat) : Option CellValue :=
  (g[d]?.bind fun row => row[s]?).join

/-- The grid has exactly `days` rows of `slots` cells each. -/
def GridDims (days slots : Nat) (g : Grid) : Prop :=
  g.length = days ∧ ∀ row ∈ g, row.length = slots

/-! ### Dimension lemmas -/

theorem emptyGrid_dims (days slots : Nat) : GridDims days slots (emptyGrid days slots) := by
  constructor
  · simp [emptyGrid]
  · intro row hrow
    simp [emptyGrid, List.eq_of_mem_replicate hrow]

theorem setCell_dims {days slots : Nat} {g : Grid} {d s : Nat} {v : CellValue}
    (h : GridDims days slots g) (hd : d < days) :
    GridDims days slots (setCell g d s v) := by
  obtain ⟨hlen, hrows⟩ := h
  refine ⟨by simpa [setCell] using hlen, ?_⟩
  intro row hrow
  rcases List.mem_or_eq_of_mem_set hrow with hmem | heq
  · exact hrows row hmem
  · subst heq
    rw [List.length_set]
    have hdl : d < g.length := hlen ▸ hd
    have : g.getD d [] ∈ g := by
      rw [List.getD_eq_getElem g [] hdl]
      exact List.getElem_mem hdl
    exact hrows _ this

theorem applySession_dims {days slots : Nat} {name : String} {g : Grid} {sess : Session}
    (h : GridDims days slots g) :
    GridDims days slots (applySession days slots name g sess) := by
  unfold applySession
  dsimp only
  split
  · rename_i hc
    apply setCell_dims h
    omega
  · exact h

/-! ### Cell lookup lemmas -/

theorem cellAt_emptyGrid (days slots d s : Nat) :
    cellAt (emptyGrid days slots) d s = none := by
  unfold cellAt emptyGrid
  by_cases hd : d < days
  · rw [List.getElem?_replicate]
    simp only [hd, if_true, Option.some_bind]
    by_cases hs : s < slots
    · rw [List.getElem?_replicate]
      simp [hs]
    · rw [List.getElem?_eq_none (by simpa using Nat.le_of_not_lt hs)]
      rfl
  · rw [List.getElem?_eq_none (by simpa using Nat.le_of_not_lt hd)]
    rfl

theorem cellAt_none_of_out {days slots : Nat} {g : Grid} {d s : Nat}
    (h : GridDims days slots g) (hout : days ≤ d ∨ slots ≤ s) :
    cellAt g d s = none := by
  obtain ⟨hlen, hrows⟩ := h
  unfold cellAt
  rcases hout with hd | hs
  · rw [List.getElem?_eq_none (hlen ▸ hd)]
    rfl
  · by_cases hd : d < g.length
    · have hmem : g[d] ∈ g := List.getElem_mem hd
      rw [List.getElem?_eq_getElem hd]
      simp only [Option.some_bind]
      rw [List.getElem?_eq_none (by rw [hrows _ hmem]; exact hs)]
      rfl
    · rw [List.getElem?_eq_none (Nat.le_of_not_lt hd)]
      rfl

theorem cellAt_setCell_self {days slots : Nat} {g : Grid} {d s : Nat} {v : CellValue}
    (h : GridDims days slots g) (hd : d < days) (hs : s < slots) :
    cellAt (setCell g d s v) d s = some v := by
  obtain ⟨hlen, hrows⟩ := h
  have hdl : d < g.length := hlen ▸ hd
  have hrow : g.getD d [] ∈ g := by
    rw [List.getD_eq_getElem g [] hdl]
    exact List.getElem_mem hdl
  unfold cellAt setCell
  rw [List.getElem?_set_self (by simpa using hdl)]
  simp only [Option.some_bind]
  rw [List.getElem?_set_self (by rw [hrows _ hrow]; exact hs)]
  rfl

theorem cellAt_setCell_ne {g : Grid} {d s d' s' : Nat} {v : CellValue}
    (hne : d' ≠ d ∨ s' ≠ s) :
    cellAt (setCell g d s v) d' s' = cellAt g d' s' := by
  unfold cellAt setCell
  rcases hne with hd | hs
  · rw [List.getElem?_set_ne (Ne.symm hd)]
  · by_cases hdd : d' = d
    · subst hdd
      by_cases hdl : d' < g.length
      · rw [List.getElem?_set_self hdl, List.getElem?_eq_getElem hdl]
        simp only [Option.some_bind]
        rw [List.getElem?_set_ne (Ne.symm hs), List.getD_eq_getElem g [] hdl]
      · rw [List.set_eq_of_length_le (Nat.le_of_not_lt hdl)]
    · rw [List.getElem?_set_ne (Ne.symm hdd)]

/-- What one session does to the cell at `(d, s)`: overwrite it when the
session targets that position in bounds, leave it alone otherwise. -/
theorem cellAt_applySession {days slots : Nat} {name : String} {g : Grid}
    {sess : Session} {d s : Nat}
    (h : GridDims days slots g) (hd : d < days) (hs : s < slots) :
    cellAt (applySession days slots name g sess) d s
      = (sessionTarget? days slots d s (name, sess)).or (cellAt g d s) := by
  unfold applySession sessionTarget?
  dsimp only
  by_cases hc : 0 ≤ sess.day - 1 ∧ sess.day - 1 < (days : Int) ∧
      0 ≤ sess.slot - 1 ∧ sess.slot - 1 < (slots : Int)
  · rw [if_pos hc]
    by_cases ht : (sess.day - 1).toNat = d ∧ (sess.slot - 1).toNat = s
    · rw [if_pos ⟨hc.1, hc.2.1, hc.2.2.1, hc.2.2.2, ht.1, ht.2⟩]
      rw [ht.1, ht.2] at *
      rw [cellAt_setCell_self h hd hs]
      rfl
    · rw [if_neg (by tauto)]
      rw [cellAt_setCell_ne (by tauto)]
      rfl
  · rw [if_neg hc, if_neg (by tauto)]
    rfl

theorem or_some_getD {α : Type} (o : Option α) (v : α) :
    o.or (some v) = some (o.getD v) := by
  cases o <;> rfl

theorem foldl_sessions_dims {days slots : Nat} (l : List (String × Session)) {g : Grid}
    (h : GridDims days slots g) :
    GridDims days slots (l.foldl (fun g q => applySession days slots q.1 g q.2) g) := by
  induction l generalizing g with
  | nil => exact h
  | cons q l ih => exact ih (applySession_dims h)

/-- Folding a list of (courseName, session) pairs over a grid: the final value
of the cell at `(d, s)` is the last write to that cell, falling back to the
grid's previous content when nothing writes there. -/
theorem cellAt_foldl_sessions {days slots d s : Nat} (l : List (String × Session))
    {g : Grid} (h : GridDims days slots g) (hd : d < days) (hs : s < slots) :
    cellAt (l.foldl (fun g q => applySession days slots q.1 g q.2) g) d s
      = ((l.filterMap (sessionTarget? days slots d s)).getLast?).or (cellAt g d s) := by
  induction l generalizing g with
  | nil => simp
  | cons q l ih =>
    rw [List.foldl_cons, ih (applySession_dims h),
      cellAt_applySession h hd hs, List.filterMap_cons]
    cases hq : sessionTarget? days slots d s q with
    | none => simp only [hq, Option.none_or]
    | some v =>
      simp only [hq, ← Option.or_assoc, or_some_getD, List.getLast?_cons]

/-- The nested course/session iteration equals one fold over the flattened
(courseName, session) list. -/
theorem buildGroupGrid_eq_foldl (days slots : Nat) (gc : GroupSchedule) :
    buildGroupGrid days slots gc
      = (sessionsOf gc).foldl (fun g q => applySession days slots q.1 g q.2)
          (emptyGrid days slots) := by
  unfold buildGroupGrid sessionsOf
  generalize emptyGrid days slots = g
  induction jsEntries gc generalizing g with
  | nil => rfl
  | cons p l ih =>
    rw [List.foldl_cons, ih, List.flatMap_cons, List.foldl_append, List.foldl_map]

theorem buildGroupGrid_dims (days slots : Nat) (gc : GroupSchedule) :
    GridDims days slots (buildGroupGrid days slots gc) := by
  rw [buildGroupGrid_eq_foldl]
  exact foldl_sessions_dims _ (emptyGrid_dims days slots)

/-- Characterization of a group's grid: each in-range cell holds exactly the
last value written to it, or nothing when no in-bounds session targets it. -/
theorem cellAt_buildGroupGrid {days slots : Nat} (gc : GroupSchedule) {d s : Nat}
    (hd : d < days) (hs : s < slots) :
    cellAt (buildGroupGrid days slots gc) d s = (writes days slots gc d s).getLast? := by
  rw [buildGroupGrid_eq_foldl,
    cellAt_foldl_sessions _ (emptyGrid_dims days slots) hd hs,
    cellAt_emptyGrid, Option.or_none]
  rfl

/-! ### Facts about `sessionTarget?`, `getLast?` and `jsEntries` -/

theorem sessionTarget?_eq_some {days slots d s : Nat} {q : String × Session}
    {c : CellValue} (h : sessionTarget? days slots d s q = some c) :
    d < days ∧ s < slots ∧ q.2.day = (d : Int) + 1 ∧ q.2.slot = (s : Int) + 1 ∧
      c = { courseName := q.1, courseType := q.2.course_type,
            teacherId := q.2.teacher_id } := by
  unfold sessionTarget? at h
  dsimp only at h
  split at h
  · rename_i hc
    obtain ⟨h1, h2, h3, h4, h5, h6⟩ := hc
    cases h
    refine ⟨by omega, by omega, by omega, by omega, rfl⟩
  · cases h

theorem sessionTarget?_eq_none {days slots d s : Nat} {q : String × Session}
    (h : ¬ sessionInBounds days slots q.2) :
    sessionTarget? days slots d s q = none := by
  unfold sessionInBounds at h
  unfold sessionTarget?
  dsimp only
  rw [if_neg]
  intro hc
  exact h ⟨by omega, by omega, by omega, by omega⟩

theorem mem_of_getLast?_eq {α : Type} {l : List α} {a : α}
    (h : l.getLast? = some a) : a ∈ l := by
  induction l with
  | nil => cases h
  | cons b l ih =>
    rw [List.getLast?_cons] at h
    injection h with h
    cases hl : l.getLast? with
    | none =>
      rw [hl] at h
      simp only [Option.getD_none] at h
      subst h
      exact List.mem_cons_self _ _
    | some c =>
      rw [hl] at h
      simp only [Option.getD_some] at h
      subst h
      exact List.mem_cons_of_mem _ (ih hl)

theorem mem_insertNum {α : Type} {x a : String × α} {l : List (String × α)} :
    a ∈ insertNum x l ↔ a = x ∨ a ∈ l := by
  induction l with
  | nil => simp [insertNum]
  | cons y ys ih =>
    unfold insertNum
    split
    · simp only [List.mem_cons]
    · simp only [List.mem_cons, ih]
      tauto

theorem mem_sortNum {α : Type} {a : String × α} {l : List (String × α)} :
    a ∈ sortNum l ↔ a ∈ l := by
  induction l with
  | nil => simp [sortNum]
  | cons x xs ih =>
    show a ∈ insertNum x (sortNum xs) ↔ _
    rw [mem_insertNum, ih]
    exact (List.mem_cons).symm

theorem mem_jsEntries {α : Type} {a : String × α} {l : List (String × α)} :
    a ∈ jsEntries l ↔ a ∈ l := by
  unfold jsEntries
  rw [List.mem_append, mem_sortNum]
  constructor
  · rintro (h | h) <;> exact (List.mem_filter.mp h).1
  · intro h
    by_cases hp : isArrayIndexKey a.1
    · exact Or.inl (List.mem_filter.mpr ⟨h, by simp [hp]⟩)
    · exact Or.inr (List.mem_filter.mpr ⟨h, by simp [hp]⟩)

theorem length_insertNum {α : Type} (x : String × α) (l : List (String × α)) :
    (insertNum x l).length = l.length + 1 := by
  induction l with
  | nil => rfl
  | cons y ys ih =>
    unfold insertNum
    split
    · rfl
    · simp [ih]

theorem length_sortNum {α : Type} (l : List (String × α)) :
    (sortNum l).length = l.length := by
  induction l with
  | nil => rfl
  | cons x xs ih =>
    show (insertNum x (sortNum xs)).length = _
    rw [length_insertNum, ih]
    rfl

theorem length_filter_partition {α : Type} (p : α → Bool) (l : List α) :
    (l.filter p).length + (l.filter (fun a => !p a)).length = l.length := by
  induction l with
  | nil => rfl
  | cons x xs ih =>
    by_cases hp : p x <;> simp [List.filter_cons, hp] <;> omega

theorem length_jsEntries {α : Type} (l : List (String × α)) :
    (jsEntries l).length = l.length := by
  unfold jsEntries
  rw [List.length_append, length_sortNum, length_filter_partition]

/-! ### Key lookup commutes with JS enumeration order -/

theorem find?_key_cons_pos {α : Type} {k : String} {y : String × α}
    (l : List (String × α)) (h : (y.1 == k) = true) :
    (y :: l).find? (fun q => q.1 == k) = some y := by
  rw [List.find?_cons]
  simp [h]

theorem find?_key_cons_neg {α : Type} {k : String} {y : String × α}
    (l : List (String × α)) (h : ¬ ((y.1 == k) = true)) :
    (y :: l).find? (fun q => q.1 == k) = l.find? (fun q => q.1 == k) := by
  have hf : (y.1 == k) = false := by simpa using h
  rw [List.find?_cons]
  simp [hf]

theorem find?_insertNum_pos {α : Type} {k : String} {x : String × α}
    {l : List (String × α)} (hx : x.1 = k) :
    (insertNum x l).find? (fun q => q.1 == k) = some x := by
  induction l with
  | nil => simp [insertNum, List.find?, hx]
  | cons y ys ih =>
    unfold insertNum
    split
    · exact find?_key_cons_pos _ (by simp [hx])
    · rename_i hlt
      have hy : ¬ ((y.1 == k) = true) := by
        intro hmatch
        have hyk : y.1 = k := by simpa using hmatch
        exact hlt (le_of_eq (by rw [hx, hyk]))
      rw [find?_key_cons_neg _ hy]
      exact ih

theorem find?_insertNum_neg {α : Type} {k : String} {x : String × α}
    {l : List (String × α)} (hx : x.1 ≠ k) :
    (insertNum x l).find? (fun q => q.1 == k) = l.find? (fun q => q.1 == k) := by
  have hxm : ¬ ((x.1 == k) = true) := by simpa using hx
  induction l with
  | nil => simp [insertNum, List.find?, hxm]
  | cons y ys ih =>
    unfold insertNum
    split
    · rw [find?_key_cons_neg _ hxm]
    · by_cases hy : (y.1 == k) = true
      · rw [find?_key_cons_pos _ hy, find?_key_cons_pos _ hy]
      · rw [find?_key_cons_neg _ hy, find?_key_cons_neg _ hy]
        exact ih

theorem find?_sortNum {α : Type} (k : String) (l : List (String × α)) :
    (sortNum l).find? (fun q => q.1 == k) = l.find? (fun q => q.1 == k) := by
  induction l with
  | nil => rfl
  | cons x xs ih =>
    show (insertNum x (sortNum xs)).find? _ = _
    by_cases hx : x.1 = k
    · rw [find?_insertNum_pos hx, find?_key_cons_pos _ (by simp [hx])]
    · rw [find?_insertNum_neg hx, ih,
        find?_key_cons_neg _ (by simpa using hx)]

theorem find?_filter_of_imp {α : Type} (p q : α → Bool) (l : List α)
    (himp : ∀ a, q a = true → p a = true) :
    (l.filter p).find? q = l.find? q := by
  induction l with
  | nil => rfl
  | cons x xs ih =>
    rw [List.filter_cons]
    by_cases hq : q x = true
    · rw [if_pos (himp x hq), List.find?_cons_of_pos _ hq, List.find?_cons_of_pos _ hq]
    · rw [List.find?_cons_of_neg _ hq]
      by_cases hp : p x = true
      · rw [if_pos hp, List.find?_cons_of_neg _ hq]
        exact ih
      · rw [if_neg hp]
        exact ih

/-- Looking up a key sees through the `Object.entries` reordering: property
lookup on the object agrees with first-match lookup on the insertion list. -/
theorem find?_jsEntries {α : Type} (k : String) (l : List (String × α)) :
    (jsEntries l).find? (fun q => q.1 == k) = l.find? (fun q => q.1 == k) := by
  unfold jsEntries
  rw [List.find?_append, find?_sortNum]
  by_cases hk : isArrayIndexKey k = true
  · have hnone : (l.filter (fun p => !isArrayIndexKey p.1)).find?
        (fun q => q.1 == k) = none := by
      rw [List.find?_eq_none]
      intro x hx hq
      have hnum := (List.mem_filter.mp hx).2
      have hxk : x.1 = k := by simpa using hq
      rw [hxk, hk] at hnum
      simp at hnum
    rw [hnone, Option.or_none]
    exact find?_filter_of_imp _ _ l (fun a ha => by
      have hak : a.1 = k := by simpa using ha
      rw [hak, hk])
  · have hnone : (l.filter (fun p => isArrayIndexKey p.1)).find?
        (fun q => q.1 == k) = none := by
      rw [List.find?_eq_none]
      intro x hx hq
      have hnum := (List.mem_filter.mp hx).2
      have hxk : x.1 = k := by simpa using hq
      rw [hxk] at hnum
      exact hk hnum
    rw [hnone, Option.none_or]
    exact find?_filter_of_imp _ _ l (fun a ha => by
      have hak : a.1 = k := by simpa using ha
      rw [hak]
      simpa using hk)

/-- JS property lookup `payload[k]` on the insertion-ordered object. -/
def lookupGroup (p : SchedulePayload) (k : String) : Option GroupSchedule :=
  (p.find? (fun q => q.1 == k)).map (fun q => q.2)

/-- Lookup of the grid associated with group `k` in `build`'s output. -/
def lookupGrid (out : List (String × Grid)) (k : String) : Option Grid :=
  (out.find? (fun q => q.1 == k)).map (fun q => q.2)

/-- The grid `build` associates with a group key is exactly
`buildGroupGrid` of that group's own schedule. -/
theorem lookupGrid_build (p : SchedulePayload) (days slots : Nat) (k : String) :
    lookupGrid (build p days slots) k
      = (lookupGroup p k).map (buildGroupGrid days slots) := by
  unfold lookupGrid lookupGroup build
  rw [List.find?_map]
  rw [show ((fun (q : String × Grid) => q.1 == k) ∘
      (fun p => (p.1, buildGroupGrid days slots p.2)))
    = (fun (q : String × GroupSchedule) => q.1 == k) from rfl]
  rw [find?_jsEntries]
  cases p.find? (fun q => q.1 == k) <;> rfl

/-! ### Characterization of the sub-type split -/

theorem splitUnd_ne_nil (l : List Char) : splitUnd l ≠ [] := by
  induction l with
  | nil => simp [splitUnd]
  | cons c cs ih =>
    unfold splitUnd
    by_cases hc : c = '_'
    · simp [hc]
    · rw [if_neg hc]
      cases h : splitUnd cs with
      | nil => simp
      | cons r rs => simp

theorem splitUnd_head? (l : List Char) :
    (splitUnd l).head? = some (l.takeWhile (fun c => c ≠ '_')) := by
  induction l with
  | nil => rfl
  | cons c cs ih =>
    unfold splitUnd
    by_cases hc : c = '_'
    · subst hc
      simp [List.takeWhile_cons]
    · rw [if_neg hc]
      cases h : splitUnd cs with
      | nil => exact absurd h (splitUnd_ne_nil cs)
      | cons r rs =>
        rw [h, List.head?_cons] at ih
        injection ih with ih
        rw [List.takeWhile_cons, if_pos (by simpa using hc), List.head?_cons, ← ih]

theorem splitUnd_no_sep {a : List Char} (ha : '_' ∉ a) : splitUnd a = [a] := by
  induction a with
  | nil => rfl
  | cons c cs ih =>
    have hc : c ≠ '_' := fun h => ha (h ▸ List.mem_cons_self c cs)
    have hcs : '_' ∉ cs := fun h => ha (List.mem_cons_of_mem _ h)
    unfold splitUnd
    rw [if_neg hc, ih hcs]

theorem splitUnd_append {a b : List Char} (ha : '_' ∉ a) :
    splitUnd (a ++ '_' :: b) = a :: splitUnd b := by
  induction a with
  | nil => simp [splitUnd]
  | cons c cs ih =>
    have hc : c ≠ '_' := fun h => ha (h ▸ List.mem_cons_self c cs)
    have hcs : '_' ∉ cs := fun h => ha (List.mem_cons_of_mem _ h)
    rw [List.cons_append]
    conv_lhs => unfold splitUnd
    rw [if_neg hc, ih hcs]

/-! ## Claim theorems -/

/-- C1: a session whose day or slot is out of range (`day < 1`, `day > days`,
`slot < 1` or `slot > slots`) is silently skipped by the grid-construction
step: it writes no cell — the grid is returned unchanged — and no error is
raised (the step is a total function). -/
theorem C1_out_of_bounds_session_skipped (daysN slotsN : Nat) (courseName : String)
    (g : Grid) (sess : Session) (h : ¬ sessionInBounds daysN slotsN sess) :
    applySession daysN slotsN courseName g sess = g := by
  unfold sessionInBounds at h
  unfold applySession
  dsimp only
  rw [if_neg]
  intro hc
  exact h ⟨by omega, by omega, by omega, by omega⟩

theorem C1_witness :
    ¬ sessionInBounds 5 5 (Session.mk "Security_lecture" 6 1 1) ∧
    applySession 5 5 "Security" (emptyGrid 5 5) (Session.mk "Security_lecture" 6 1 1)
      = emptyGrid 5 5 :=
  ⟨by decide,
   C1_out_of_bounds_session_skipped 5 5 "Security" (emptyGrid 5 5) _ (by decide)⟩

/-- C2: last-write-wins — whenever at least one in-bounds session of the group
maps to position `(d, s)` (in particular when two or more collide there), the
final cell equals exactly the value written by the last such session in
processing order (courses in the payload object's iteration order, sessions in
list order); it is never a merge and never an error. -/
theorem C2_last_write_wins (daysN slotsN : Nat) (gc : GroupSchedule) (d s : Nat)
    (h : writes daysN slotsN gc d s ≠ []) :
    cellAt (buildGroupGrid daysN slotsN gc) d s
      = (writes daysN slotsN gc d s).getLast? := by
  obtain ⟨c, hc⟩ := List.exists_mem_of_ne_nil _ h
  obtain ⟨q, hq, hqt⟩ := List.mem_filterMap.mp hc
  obtain ⟨hd, hs, -⟩ := sessionTarget?_eq_some hqt
  exact cellAt_buildGroupGrid gc hd hs

theorem C2_witness :
    writes 5 5
        [("A", [Session.mk "A_lecture" 1 1 1]), ("B", [Session.mk "B_td" 1 1 2])] 0 0
      ≠ [] ∧
    cellAt (buildGroupGrid 5 5
        [("A", [Session.mk "A_lecture" 1 1 1]), ("B", [Session.mk "B_td" 1 1 2])]) 0 0
      = (writes 5 5
          [("A", [Session.mk "A_lecture" 1 1 1]), ("B", [Session.mk "B_td" 1 1 2])]
          0 0).getLast? :=
  ⟨by decide, C2_last_write_wins 5 5 _ 0 0 (by decide)⟩

/-- C3 as stated is false on the code: for a `course_type` with more than one
underscore, `split('_')[1]` yields only the segment between the first and the
second underscore, not everything after the first underscore. -/
theorem C3_counterexample :
    subTypeDisplay "Security_lecture_A" = "lecture" ∧
    subTypeSpec "Security_lecture_A" = "lecture_A" ∧
    subTypeDisplay "Security_lecture_A" ≠ subTypeSpec "Security_lecture_A" := by
  refine ⟨by decide, by decide, by decide⟩

/-- C3 amended: the derived sub-type label equals the run of characters
strictly between the first underscore and the next underscore (or the end of
the string) — field 1 of the underscore-split — and is empty when
`course_type` contains no underscore. -/
theorem C3_subtype_is_second_split_field (a b : List Char) (ha : '_' ∉ a) :
    subTypeDisplay (String.mk (a ++ '_' :: b))
        = String.mk (b.takeWhile (fun c => c ≠ '_'))
      ∧ subTypeDisplay (String.mk a) = "" := by
  constructor
  · show String.mk (((splitUnd (String.mk (a ++ '_' :: b)).data).get? 1).getD []) = _
    rw [show (String.mk (a ++ '_' :: b)).data = a ++ '_' :: b from rfl,
      splitUnd_append ha, List.get?_cons_succ, List.get?_zero, splitUnd_head?]
    rfl
  · show String.mk (((splitUnd (String.mk a).data).get? 1).getD []) = ""
    rw [show (String.mk a).data = a from rfl, splitUnd_no_sep ha]
    rfl

theorem C3_witness :
    '_' ∉ "Security".data ∧
    (subTypeDisplay (String.mk ("Security".data ++ '_' :: "lecture_A".data))
        = String.mk ("lecture_A".data.takeWhile (fun c => c ≠ '_'))
      ∧ subTypeDisplay (String.mk "Security".data) = "") :=
  ⟨by decide, C3_subtype_is_second_split_field "Security".data "lecture_A".data
    (by decide)⟩

/-- C4: `build` outputs exactly one grid per group key of the payload (same
count, same key set), and a group with zero courses, zero sessions, or only
out-of-bounds sessions gets a grid whose every cell is empty. -/
theorem C4_one_grid_per_group (daysN slotsN : Nat) (payload : SchedulePayload)
    (gc : GroupSchedule) :
    ((build payload daysN slotsN).length = payload.length ∧
      ∀ k : String, (∃ g, (k, g) ∈ build payload daysN slotsN)
        ↔ ∃ sch, (k, sch) ∈ payload) ∧
    ((∀ q ∈ sessionsOf gc, ¬ sessionInBounds daysN slotsN q.2) →
      ∀ d s, cellAt (buildGroupGrid daysN slotsN gc) d s = none) := by
  refine ⟨⟨?_, ?_⟩, ?_⟩
  · unfold build
    rw [List.length_map, length_jsEntries]
  · intro k
    constructor
    · rintro ⟨g, hg⟩
      unfold build at hg
      obtain ⟨p, hp, heq⟩ := List.mem_map.mp hg
      have hk : p.1 = k := congrArg Prod.fst heq
      exact ⟨p.2, by rw [← hk]; exact mem_jsEntries.mp hp⟩
    · rintro ⟨sch, hsch⟩
      exact ⟨buildGroupGrid daysN slotsN sch,
        List.mem_map.mpr ⟨(k, sch), mem_jsEntries.mpr hsch, rfl⟩⟩
  · intro hall d s
    by_cases hd : d < daysN
    · by_cases hs : s < slotsN
      · rw [cellAt_buildGroupGrid gc hd hs]
        have hw : writes daysN slotsN gc d s = [] := by
          unfold writes
          rw [List.filterMap_eq_nil_iff]
          intro q hq
          exact sessionTarget?_eq_none (hall q hq)
        rw [hw]
        rfl
      · exact cellAt_none_of_out (buildGroupGrid_dims daysN slotsN gc)
          (Or.inr (Nat.le_of_not_lt hs))
    · exact cellAt_none_of_out (buildGroupGrid_dims daysN slotsN gc)
        (Or.inl (Nat.le_of_not_lt hd))

theorem C4_witness :
    (build [("1", [])] 5 5).length = 1 ∧
    cellAt (buildGroupGrid 5 5 [("C", [Session.mk "C_lecture" 6 1 1])]) 2 3 = none :=
  ⟨(C4_one_grid_per_group 5 5 [("1", [])] []).1.1,
   (C4_one_grid_per_group 5 5 [("1", [])] [("C", [Session.mk "C_lecture" 6 1 1])]).2
     (by decide) 2 3⟩

/-- C5: the spec's concrete scenario — the one-session payload for group "1"
with days = slots = 5 yields exactly one grid whose cell (0,0) carries
courseName "Security", courseType "Security_lecture" and teacherId 1, every
other cell empty, and the derived sub-type of "Security_lecture" is
"lecture". -/
theorem C5_concrete_scenario :
    build [("1", [("Security", [Session.mk "Security_lecture" 1 1 1])])] 5 5
      = [("1",
          [[some (CellValue.mk "Security" "Security_lecture" 1),
              none, none, none, none],
           [none, none, none, none, none],
           [none, none, none, none, none],
           [none, none, none, none, none],
           [none, none, none, none, none]])] ∧
    subTypeDisplay "Security_lecture" = "lecture" := by
  exact ⟨by decide, by decide⟩

/-- C6: determinism — `build` applied twice to identical payloads and
identical dimensions returns identical (hence cell-for-cell equal) outputs. -/
theorem C6_build_deterministic (p₁ p₂ : SchedulePayload) (d₁ d₂ s₁ s₂ : Nat)
    (hp : p₁ = p₂) (hd : d₁ = d₂) (hs : s₁ = s₂) :
    build p₁ d₁ s₁ = build p₂ d₂ s₂ := by
  rw [hp, hd, hs]

theorem C6_witness :
    build [("1", [("Security", [Session.mk "Security_lecture" 1 1 1])])] 5 5
      = build [("1", [("Security", [Session.mk "Security_lecture" 1 1 1])])] 5 5 :=
  C6_build_deterministic _ _ _ _ _ _ rfl rfl rfl

/-- C7: the component's grids always have exactly `days = 5` rows and
`slots = 5` columns (the source's fixed label-list lengths), independent of
the payload; the freshly allocated grid has every cell empty; a cell is an
`Option CellValue`, so it holds at most one value at any time. -/
theorem C7_grid_dimensions :
    days.length = 5 ∧ timeSlots.length = 5 ∧
    (∀ (data : SchedulePayload) (k : String) (g : Grid),
      (k, g) ∈ timetableGrids data → g.length = 5 ∧ ∀ row ∈ g, row.length = 5) ∧
    (∀ daysN slotsN : Nat, ∀ row ∈ emptyGrid daysN slotsN, ∀ cell ∈ row,
      cell = none) := by
  refine ⟨rfl, rfl, ?_, ?_⟩
  · intro data k g hmem
    unfold timetableGrids build at hmem
    obtain ⟨p, hp, heq⟩ := List.mem_map.mp hmem
    have hg : buildGroupGrid days.length timeSlots.length p.2 = g :=
      congrArg Prod.snd heq
    have hdims := buildGroupGrid_dims days.length timeSlots.length p.2
    rw [hg] at hdims
    exact ⟨hdims.1, hdims.2⟩
  · intro daysN slotsN row hrow cell hcell
    have hr := List.eq_of_mem_replicate hrow
    rw [hr] at hcell
    exact List.eq_of_mem_replicate hcell

theorem C7_witness :
    ("1", buildGroupGrid 5 5 []) ∈ timetableGrids [("1", [])] ∧
    (buildGroupGrid 5 5 []).length = 5 :=
  ⟨by decide,
   (C7_grid_dimensions.2.2.1 [("1", [])] "1" (buildGroupGrid 5 5 []) (by decide)).1⟩

/-- C8 fails as stated: JavaScript `Object.entries` enumerates integer-like
keys in ascending numeric order regardless of insertion order, so the payload
with keys in order ["2", "1"] produces output entries in order ["1", "2"]. -/
theorem C8_counterexample :
    (build [("2", []), ("1", [])] 5 5).map Prod.fst = ["1", "2"] ∧
    ([("2", ([] : GroupSchedule)), ("1", [])]).map Prod.fst = ["2", "1"] ∧
    (build [("2", []), ("1", [])] 5 5).map Prod.fst
      ≠ ([("2", ([] : GroupSchedule)), ("1", [])]).map Prod.fst := by
  exact ⟨by decide, by decide, by decide⟩

/-- C8 amended: the output enumerates one entry per group in JavaScript
property enumeration order (`jsEntries`): array-index-like keys first in
ascending numeric order, then the remaining keys in insertion order. Payload
insertion order as such is preserved exactly when the keys already appear in
that enumeration order (for example, when no key is array-index-like). -/
theorem C8_output_order_js_enumeration (payload : SchedulePayload)
    (daysN slotsN : Nat) :
    (build payload daysN slotsN).map Prod.fst = (jsEntries payload).map Prod.fst := by
  unfold build
  rw [List.map_map]
  rfl

/-- C9: cell soundness — every populated cell `(d, s)` of a group's grid comes
from an actual session of that group with `day = d + 1` and `slot = s + 1`,
whose course name, course type and teacher id are exactly the cell's values. -/
theorem C9_cell_soundness (daysN slotsN : Nat) (gc : GroupSchedule) (d s : Nat)
    (c : CellValue) (h : cellAt (buildGroupGrid daysN slotsN gc) d s = some c) :
    ∃ courseName sessions sess, (courseName, sessions) ∈ gc ∧ sess ∈ sessions ∧
      sess.day = (d : Int) + 1 ∧ sess.slot = (s : Int) + 1 ∧
      c.courseName = courseName ∧ c.courseType = sess.course_type ∧
      c.teacherId = sess.teacher_id := by
  have hdims := buildGroupGrid_dims daysN slotsN gc
  by_cases hd : d < daysN
  · by_cases hs : s < slotsN
    · rw [cellAt_buildGroupGrid gc hd hs] at h
      have hc := mem_of_getLast?_eq h
      obtain ⟨q, hq, hqt⟩ := List.mem_filterMap.mp hc
      obtain ⟨-, -, hday, hslot, hcv⟩ := sessionTarget?_eq_some hqt
      unfold sessionsOf at hq
      obtain ⟨p, hp, hqm⟩ := List.mem_flatMap.mp hq
      obtain ⟨sess, hsess, hqe⟩ := List.mem_map.mp hqm
      subst hqe
      refine ⟨p.1, p.2, sess, mem_jsEntries.mp hp, hsess, hday, hslot,
        ?_, ?_, ?_⟩ <;> rw [hcv]
    · rw [cellAt_none_of_out hdims (Or.inr (Nat.le_of_not_lt hs))] at h
      cases h
  · rw [cellAt_none_of_out hdims (Or.inl (Nat.le_of_not_lt hd))] at h
    cases h

theorem C9_witness :
    ∃ courseName sessions sess,
      (courseName, sessions)
          ∈ ([("Security", [Session.mk "Security_lecture" 1 1 1])] : GroupSchedule) ∧
      sess ∈ sessions ∧
      sess.day = ((0 : Nat) : Int) + 1 ∧ sess.slot = ((0 : Nat) : Int) + 1 ∧
      (CellValue.mk "Security" "Security_lecture" 1).courseName = courseName ∧
      (CellValue.mk "Security" "Security_lecture" 1).courseType
        = sess.course_type ∧
      (CellValue.mk "Security" "Security_lecture" 1).teacherId
        = sess.teacher_id :=
  C9_cell_soundness 5 5 [("Security", [Session.mk "Security_lecture" 1 1 1])] 0 0
    (CellValue.mk "Security" "Security_lecture" 1) (by decide)

/-- C10: group isolation — the grid built for a group key depends only on that
group's own schedule: two payloads assigning the same schedule to key `k`
yield the same grid at `k`, whatever their other entries. -/
theorem C10_group_isolation (p₁ p₂ : SchedulePayload) (daysN slotsN : Nat)
    (k : String) (h : lookupGroup p₁ k = lookupGroup p₂ k) :
    lookupGrid (build p₁ daysN slotsN) k = lookupGrid (build p₂ daysN slotsN) k := by
  rw [lookupGrid_build, lookupGrid_build, h]

theorem C10_witness :
    lookupGroup [("1", [("A", [])]), ("2", [("B", [])])] "1"
      = lookupGroup [("3", [("C", [Session.mk "C_td" 2 2 9])]), ("1", [("A", [])])]
          "1" ∧
    lookupGrid (build [("1", [("A", [])]), ("2", [("B", [])])] 5 5) "1"
      = lookupGrid
          (build [("3", [("C", [Session.mk "C_td" 2 2 9])]), ("1", [("A", [])])] 5 5)
          "1" :=
  ⟨by decide, C10_group_isolation _ _ 5 5 "1" (by decide)⟩

end TimetableModel
